import Mathlib

/-!
Verification development for the dependency-aware GDScript generation
pipeline (supervisor / code writer / code review / file processor nodes).

The Python sources are shallowly embedded:
* strings are Lean `String`s (logically lists of characters); Python
  `str.lower` is modelled per character on the ASCII range, `str.strip`
  strips the ASCII whitespace characters Python strips;
* dictionaries carrying work-item fields become the `FileDef` structure,
  where a missing key is `none`;
* values that may fail to be dictionaries (queue entries, decoded JSON
  array elements) become two-constructor inductives (`Entry`, `JEntry`);
* the external generation service (`call_claude`) and the JSON decoder
  (`json.loads`) are oracle parameters; a decoder result of `none` models
  a raised `json.JSONDecodeError`;
* the LangGraph nodes become step functions on an explicit `PState`;
  routing follows the `Command(goto=...)` values the nodes return.
-/

/-! ## Python string primitives (file_deduplication.py) -/

/-- The ASCII whitespace characters stripped by Python `str.strip()`. -/
def pyIsSpace (c : Char) : Bool :=
  c = ' ' || c = '\t' || c = '\n' || c = '\r' || c = '\x0b' || c = '\x0c'

/-- Python `str.strip()` on a character list: drop whitespace from both ends. -/
def stripChars (l : List Char) : List Char :=
  ((l.dropWhile pyIsSpace).reverse.dropWhile pyIsSpace).reverse

/-- Python `s.split('/')[-1]` on a character list: the suffix after the last `'/'`. -/
def lastSegmentChars (l : List Char) : List Char :=
  (l.reverse.takeWhile (· ≠ '/')).reverse

/-- Python `s.replace('\\', '/')` on one character. -/
def replSlash (c : Char) : Char :=
  if c = '\\' then '/' else c

/-- Character pipeline of `FileDedupTracker.normalize_filename`:
`filename.lower().strip().replace('\\', '/').split('/')[-1]`. -/
def normChars (l : List Char) : List Char :=
  lastSegmentChars ((stripChars (l.map Char.toLower)).map replSlash)

/-- Embeds `FileDedupTracker.normalize_filename` (file_deduplication.py,
lines 10-15).  An empty string (the only falsy `str`) returns `""`. -/
def normalize_filename (s : String) : String :=
  if s = "" then "" else String.mk (normChars s.data)

/-- Python `str.strip()` as a `String` function. -/
def pyStrip (s : String) : String :=
  String.mk (stripChars s.data)

/-! ### Normalizer lemmas -/

theorem charOfNat_toNat (n : Nat) (h : n.isValidChar) : (Char.ofNat n).toNat = n := by
  unfold Char.ofNat
  rw [dif_pos h]
  simp [Char.ofNatAux, Char.toNat, UInt32.toNat, BitVec.toNat_ofNatLt]

theorem toLower_idem (c : Char) : Char.toLower (Char.toLower c) = Char.toLower c := by
  unfold Char.toLower
  by_cases h : c.toNat ≥ 65 ∧ c.toNat ≤ 90
  · rw [if_pos h]
    have hv : (Char.ofNat (c.toNat + 32)).toNat = c.toNat + 32 := by
      apply charOfNat_toNat
      left
      omega
    rw [if_neg]
    omega
  · rw [if_neg h, if_neg h]

theorem mem_stripChars {c : Char} {l : List Char} (h : c ∈ stripChars l) : c ∈ l := by
  unfold stripChars at h
  rw [List.mem_reverse] at h
  have h1 := (List.dropWhile_sublist pyIsSpace).mem h
  rw [List.mem_reverse] at h1
  exact (List.dropWhile_sublist pyIsSpace).mem h1

theorem mem_lastSegmentChars {c : Char} {l : List Char} (h : c ∈ lastSegmentChars l) :
    c ∈ l ∧ c ≠ '/' := by
  unfold lastSegmentChars at h
  rw [List.mem_reverse] at h
  refine ⟨?_, ?_⟩
  · have := (List.takeWhile_sublist (· ≠ '/')).mem h
    rw [List.mem_reverse] at this
    exact this
  · have := List.mem_takeWhile_imp h
    simpa using this

theorem replSlash_ne_backslash (c : Char) : replSlash c ≠ '\\' := by
  unfold replSlash
  by_cases h : c = '\\'
  · rw [if_pos h]
    decide
  · rw [if_neg h]
    exact h

theorem toLower_replSlash_of_lowered {c : Char} (h : Char.toLower c = c) :
    Char.toLower (replSlash c) = replSlash c := by
  unfold replSlash
  by_cases hb : c = '\\'
  · rw [if_pos hb]
    decide
  · rw [if_neg hb]
    exact h

/-- Every character of `normChars l` is fixed by `toLower` and is neither a
slash nor a backslash. -/
theorem normChars_chars {c : Char} {l : List Char} (h : c ∈ normChars l) :
    Char.toLower c = c ∧ c ≠ '\\' ∧ c ≠ '/' := by
  unfold normChars at h
  obtain ⟨hmem, hslash⟩ := mem_lastSegmentChars h
  obtain ⟨d, hd, rfl⟩ := List.mem_map.mp hmem
  have hdl : d ∈ l.map Char.toLower := mem_stripChars hd
  obtain ⟨e, _, rfl⟩ := List.mem_map.mp hdl
  refine ⟨toLower_replSlash_of_lowered (toLower_idem e), replSlash_ne_backslash _, hslash⟩

theorem lastSegmentChars_eq_self {l : List Char} (h : ∀ c ∈ l, c ≠ '/') :
    lastSegmentChars l = l := by
  unfold lastSegmentChars
  rw [List.takeWhile_eq_self_iff.mpr, List.reverse_reverse]
  intro c hc
  simpa using h c (List.mem_reverse.mp hc)

theorem normChars_of_lowered_clean {l : List Char}
    (hl : ∀ c ∈ l, Char.toLower c = c ∧ c ≠ '\\' ∧ c ≠ '/') :
    normChars l = stripChars l := by
  unfold normChars
  have h1 : l.map Char.toLower = l := by
    rw [List.map_congr_left fun c hc => (hl c hc).1]
    exact List.map_id' l
  rw [h1]
  have h2 : (stripChars l).map replSlash = stripChars l := by
    have hcg : ∀ c ∈ stripChars l, replSlash c = c := by
      intro c hc
      unfold replSlash
      rw [if_neg (hl c (mem_stripChars hc)).2.1]
    rw [List.map_congr_left hcg]
    exact List.map_id' _
  rw [h2]
  apply lastSegmentChars_eq_self
  intro c hc
  exact (hl c (mem_stripChars hc)).2.2

theorem stringMk_eq_empty_iff (l : List Char) : String.mk l = "" ↔ l = [] := by
  constructor
  · intro h
    have : (String.mk l).data = ("" : String).data := by rw [h]
    simpa using this
  · intro h
    rw [h]

/-- C4 (amended). Normalizing twice equals stripping once after normalizing:
`normalize(normalize x) = strip(normalize x)`; idempotence therefore holds
exactly when the normalized form carries no leading whitespace. -/
theorem C4_normalize_twice_eq_strip (x : String) :
    normalize_filename (normalize_filename x) = pyStrip (normalize_filename x) := by
  unfold normalize_filename
  by_cases hx : x = ""
  · rw [if_pos hx, if_pos rfl]
    rfl
  · rw [if_neg hx]
    by_cases hn : String.mk (normChars x.data) = ""
    · rw [if_pos hn, hn]
      rfl
    · rw [if_neg hn]
      have hdata : (String.mk (normChars x.data)).data = normChars x.data := rfl
      rw [hdata]
      unfold pyStrip
      rw [hdata, normChars_of_lowered_clean]
      intro c hc
      exact normChars_chars hc

/-- C4 (counterexample). The normalizer is not idempotent: on `"a/ b"` it
returns `" b"`, whose normalization is `"b"` (the whole string is stripped
before splitting on path separators, so the final segment can keep leading
whitespace that a second pass removes). -/
theorem C4_cex_not_idempotent :
    normalize_filename (normalize_filename "a/ b") ≠ normalize_filename "a/ b" := by
  decide

/-! ## Work items, queue entries, JSON elements -/

/-- A Python dictionary describing one work item / file definition.  Each
field is the value of the corresponding string key; `none` models a missing
key.  Keys never read by the embedded code are omitted. -/
structure FileDef where
  filename : Option String
  purpose : Option String
  code : Option String
  iteration : Option Nat
  status : Option String
  previous_code : Option String
  feedback : Option String
deriving DecidableEq

/-- A work item carrying only a filename (all other keys absent). -/
def namedDef (n : String) : FileDef :=
  ⟨some n, none, none, none, none, none, none⟩

/-- Python `d.get("filename", "")`. -/
def pyGetFilename (f : FileDef) : String :=
  f.filename.getD ""

/-- An element of `pending_files`: a dictionary, or any non-dict value
(which the pipeline skips via `isinstance` checks). -/
inductive Entry where
  | dict (f : FileDef)
  | nonDict
deriving DecidableEq

/-- An element of a decoded JSON array: an object (as a `FileDef`) or a
non-object value. -/
inductive JEntry where
  | obj (f : FileDef)
  | nonObj
deriving DecidableEq

/-! ## FileDedupTracker (file_deduplication.py) -/

/-- Embeds `FileDedupTracker.is_duplicate_file` (lines 17-61): a file is a
duplicate when its name is falsy or the sentinel, normalizes to `""`, or
normalizes equal to an existing, pending, or processed name. -/
def is_duplicate_file (filename : String) (existing : List String)
    (pending : List Entry) (processed : List String) : Bool :=
  if filename = "" || filename = "Unnamed.gd" then
    true
  else
    let norm := normalize_filename filename
    if norm = "" then
      true
    else if existing.any fun e => normalize_filename e = norm then
      true
    else if pending.any fun p =>
        match p with
        | .dict d => normalize_filename (pyGetFilename d) = norm
        | .nonDict => false then
      true
    else if processed.any fun p => normalize_filename p = norm then
      true
    else
      false

/-- Recursive worker for `deduplicate_dependencies`, carrying the
`seen_filenames` accumulator. -/
def dedupDepsGo (existing : List String) (pending : List Entry)
    (processed : List String) (seen : List String) : List Entry → List FileDef
  | [] => []
  | .nonDict :: rest => dedupDepsGo existing pending processed seen rest
  | .dict d :: rest =>
    let filename := pyGetFilename d
    if filename = "" then
      dedupDepsGo existing pending processed seen rest
    else if filename = "Unnamed.gd" then
      dedupDepsGo existing pending processed seen rest
    else
      let norm := normalize_filename filename
      if seen.contains norm then
        dedupDepsGo existing pending processed seen rest
      else if is_duplicate_file filename existing pending processed then
        dedupDepsGo existing pending processed (norm :: seen) rest
      else
        d :: dedupDepsGo existing pending processed (norm :: seen) rest

/-- Embeds `FileDedupTracker.deduplicate_dependencies` (lines 63-114):
drops non-dicts, falsy and sentinel names, batch duplicates (first
occurrence wins), and anything `is_duplicate_file` flags. -/
def deduplicate_dependencies (deps : List Entry) (existing : List String)
    (pending : List Entry) (processed : List String) : List FileDef :=
  dedupDepsGo existing pending processed [] deps

/-! ## Dependency detection (file_processor.py, `_detect_dependencies`) -/

/-- Embeds `BASIC_GODOT_TYPES` from config.py: engine built-ins that are
never treated as dependencies. -/
def BASIC_GODOT_TYPES : List String :=
  ["Node", "Node2D", "Sprite2D", "Control", "Button", "Label", "LineEdit",
   "TextureButton", "CanvasLayer", "Camera2D", "Area2D", "CollisionShape2D",
   "RigidBody2D", "StaticBody2D", "CharacterBody2D", "Timer", "AudioStreamPlayer",
   "AnimationPlayer", "AnimatedSprite2D", "Tween", "Resource", "Reference",
   "String", "Array", "Dictionary", "Vector2", "Vector3", "Rect2", "Color",
   "Transform2D", "Callable", "Signal", "PackedScene", "SceneTree", "Viewport",
   "TextureRect", "Panel", "TileMap", "Navigation2D", "NavigationAgent2D",
   "ShaderMaterial", "Shader", "HTTPRequest", "TCP_Server", "WebSocketClient",
   "OS", "DisplayServer", "Input", "Engine", "ProjectSettings", "ResourceLoader",
   "File", "Directory", "Mutex", "Thread", "Semaphore", "VideoStream",
   "VideoStreamPlayer", "PanelContainer", "HBoxContainer", "VBoxContainer",
   "GridContainer", "MarginContainer", "BoxContainer", "HSeparator",
   "VSeparator", "ScrollContainer", "Tree", "ItemList", "Object", "RefCounted",
   "RayCast2D", "Path2D", "PathFollow2D", "EditorPlugin", "EditorScript",
   "MultiplayerAPI", "MultiplayerPeer", "NetworkedMultiplayerPeer", "Position2D"]

/-- Embeds `re.search(r'\[[\s\S]*\]', response)`: the greedy match runs from
the first `'['` to the last `']'` after it; `none` when no such span exists. -/
def extractArray (s : String) : Option String :=
  let t := s.data.dropWhile (· ≠ '[')
  let r := t.reverse.dropWhile (· ≠ ']')
  if r.isEmpty then none else some (String.mk r.reverse)

/-- The data formatted into `PROMPTS["dependency_analysis"]` for one
content-generation call: the (truncated) unresolved names joined into the
prompt, the referencing file, and the first 500 characters of its code. -/
structure DetectCall where
  names : List String
  source_file : String
  code_excerpt : String
deriving DecidableEq

/-- Python `dep.startswith("_")`: the first character is an underscore. -/
def startsWithUnderscore (s : String) : Bool :=
  match s.data with
  | [] => false
  | ch :: _ => ch = '_'

/-- Candidate filter of `_detect_dependencies` (lines 256-263): keep
candidates without a leading underscore, outside the built-in vocabulary,
whose `.gd` filename is not yet tracked anywhere. -/
def detect_filtered (potential : List String) (existing : List String)
    (pending : List Entry) (processed : List String) : List String :=
  potential.filter fun dep =>
    !(startsWithUnderscore dep) && !(BASIC_GODOT_TYPES.contains dep) &&
      !(is_duplicate_file (dep ++ ".gd") existing pending processed)

def MAX_DEPENDENCIES : Nat := 3

/-- Embeds `FileProcessorNode._detect_dependencies` (file_processor.py,
lines 208-320) from the candidate set onward.  The union of the six regex
scans over the code (lines 234-254) is abstracted as the input `potential`
(its order models Python set iteration); `claude` is the content-generation
oracle and `decode` models `json.loads` on the extracted array text (`none`
models a raised `JSONDecodeError`).  Returns the produced definitions
together with the call issued to the service, if any. -/
def detect_dependencies (claude : DetectCall → String)
    (decode : String → Option (List JEntry)) (source_file code : String)
    (existing : List String) (processed : List String) (pending : List Entry)
    (potential : List String) : List FileDef × Option DetectCall :=
  if source_file = "" || code = "" then
    ([], none)
  else
    let filtered := (detect_filtered potential existing pending processed).take
      MAX_DEPENDENCIES
    if filtered.isEmpty then
      ([], none)
    else
      let call : DetectCall := ⟨filtered, source_file, String.mk (code.data.take 500)⟩
      let response := claude call
      match extractArray response with
      | none => ([], some call)
      | some txt =>
        match decode txt with
        | none => ([], some call)
        | some defs =>
          let validated := defs.filterMap fun e =>
            match e with
            | .obj d =>
              if pyGetFilename d = "" then none
              else if pyGetFilename d = "Unnamed.gd" then none
              else some (Entry.dict d)
            | .nonObj => none
          (deduplicate_dependencies validated existing pending processed, some call)

/-! ## Planner (supervisor.py, `_plan_necessary_files`) -/

def MAX_INITIAL_FILES : Nat := 25

/-- Embeds `SupervisorNode._plan_necessary_files` (supervisor.py, lines
105-166) from the service response onward: `Except.error ()` models the
raised `ValueError` (no array found) and the re-raised `JSONDecodeError`
(`decode` returns `none`); otherwise the planned entries are validated
(dict, non-empty, non-sentinel name) and capped at `MAX_INITIAL_FILES`. -/
def plan_necessary_files (decode : String → Option (List JEntry))
    (response : String) : Except Unit (List FileDef) :=
  match extractArray response with
  | none => .error ()
  | some txt =>
    match decode txt with
    | none => .error ()
    | some planned =>
      let valid := planned.filterMap fun e =>
        match e with
        | .obj f =>
          if pyGetFilename f = "" then none
          else if pyGetFilename f = "Unnamed.gd" then none
          else some f
        | .nonObj => none
      .ok (valid.take MAX_INITIAL_FILES)

/-! ## Pipeline state and node steps -/

/-- The graph nodes relevant to the orchestration loop.  `scene_setup` is
the terminal hand-off out of the loop. -/
inductive Node where
  | code_writer
  | code_review
  | file_processor
  | scene_setup
deriving DecidableEq

/-- The observable pipeline state: the node about to run plus the state
channels the claims speak about (`current_file`, `pending_files`,
`generated_code` as an insertion-ordered map, `processed_files`). -/
structure PState where
  node : Node
  current_file : Option FileDef
  pending_files : List Entry
  generated_code : List (String × String)
  processed_files : List String
deriving DecidableEq

/-- External behavior the nodes depend on: generated code for the current
item (`call_claude` plus code extraction in the writer), the validation
issue list (`_validate_gdscript`), the dependency-analysis oracle and JSON
decoder, and the regex candidate extraction from finished code. -/
structure Env where
  gen : FileDef → String
  validate : String → String → List String
  claude : DetectCall → String
  decode : String → Option (List JEntry)
  candidates : String → List String

/-- Python `set(...)` on a string list: membership-preserving
deduplication. -/
def pySet : List String → List String
  | [] => []
  | x :: rest =>
    let r := pySet rest
    if x ∈ r then r else x :: r

/-- Python `set.add`. -/
def setAdd (l : List String) (x : String) : List String :=
  if x ∈ l then l else l ++ [x]

/-- Keys of an insertion-ordered dictionary. -/
def dictKeys (d : List (String × String)) : List String :=
  d.map Prod.fst

/-- Python `key in dict`. -/
def dictContains (d : List (String × String)) (k : String) : Bool :=
  (dictKeys d).contains k

/-- Python `dict[key]` lookup. -/
def dictGet (d : List (String × String)) (k : String) : Option String :=
  (d.find? fun p => p.1 = k).map Prod.snd

/-- Python `dict[key] = value`: replace in place, else append. -/
def dictInsert (d : List (String × String)) (k v : String) :
    List (String × String) :=
  if dictContains d k then
    d.map fun p => if p.1 = k then (k, v) else p
  else
    d ++ [(k, v)]

/-- Emergency filtering of `pending_files` (file_processor.py, lines
94-111): drop non-dicts, missing/empty filenames, and the sentinel. -/
def emergencyFilter (l : List Entry) : List Entry :=
  l.filter fun e =>
    match e with
    | .nonDict => false
    | .dict d => !(pyGetFilename d = "") && !(pyGetFilename d = "Unnamed.gd")

/-- Worker for queue deduplication, carrying `seen_filenames`. -/
def dedupPendingGo (seen : List String) : List Entry → List Entry
  | [] => []
  | e :: rest =>
    let filename :=
      match e with
      | .dict d => pyGetFilename d
      | .nonDict => ""
    if filename = "" then
      dedupPendingGo seen rest
    else
      let norm := normalize_filename filename
      if norm ∈ seen then
        dedupPendingGo seen rest
      else
        e :: dedupPendingGo (norm :: seen) rest

/-- Queue deduplication by canonical name, first occurrence wins
(file_processor.py, lines 113-133). -/
def dedupPending (l : List Entry) : List Entry :=
  dedupPendingGo [] l

def MAX_PENDING_FILES : Nat := 30

/-- Validity of a queue entry in the pop-validate scan (file_processor.py,
lines 149-172): a dict with a non-empty, non-sentinel name that
`is_duplicate_file` does not flag against the finalized map and the
processed set (the pending argument of that call is `[]` in the source). -/
def isValidPendingEntry (existing processed : List String) : Entry → Bool
  | .nonDict => false
  | .dict d =>
    let filename := pyGetFilename d
    if filename = "" then false
    else if filename = "Unnamed.gd" then false
    else !(is_duplicate_file filename existing [] processed)

/-- The pop-validate scan: find the first valid entry; the returned queue is
`pending[:idx] + pending[idx+1:]`, so skipped entries before the hit are
kept. -/
def popValid (existing processed : List String) : List Entry →
    Option (FileDef × List Entry)
  | [] => none
  | e :: rest =>
    if isValidPendingEntry existing processed e then
      match e with
      | .dict d => some (d, rest)
      | .nonDict => none
    else
      match popValid existing processed rest with
      | none => none
      | some (v, rem) => some (v, e :: rem)

def max_files_threshold : Nat := 100

/-- Lines 28-79 of `FileProcessorNode.invoke`: coerce `processed_files` to a
set, detect dependencies of a just-completed current file (when its status
is `"completed"`, its name truthy, present in `generated_code`, and not yet
processed, with truthy code), validate them, and extend the queue.  Returns
the updated processed set and queue. -/
def fpPhase1 (env : Env) (s : PState) : List String × List Entry :=
  let processed := pySet s.processed_files
  match s.current_file with
  | none => (processed, s.pending_files)
  | some f =>
    if f.status = some "completed" then
      match f.filename with
      | none => (processed, s.pending_files)
      | some name =>
        if name ≠ "" ∧ dictContains s.generated_code name ∧ name ∉ processed then
          let ncode := (dictGet s.generated_code name).getD ""
          if ncode ≠ "" then
            let processed1 := setAdd processed name
            let found := (detect_dependencies env.claude env.decode name ncode
              (dictKeys s.generated_code) processed1 s.pending_files
              (env.candidates ncode)).1
            let valid_deps := found.filter fun d =>
              !(pyGetFilename d = "") && !(pyGetFilename d = "Unnamed.gd")
            (processed1, s.pending_files ++ valid_deps.map Entry.dict)
          else
            (processed, s.pending_files)
        else
          (processed, s.pending_files)
    else
      (processed, s.pending_files)

/-- The three `Command(goto="scene_setup")` exits of the file processor:
store the processed set, clear the queue. -/
def fpToScene (s : PState) (processed : List String) : PState :=
  { s with node := .scene_setup, processed_files := processed,
           pending_files := [] }

/-- Embeds `FileProcessorNode.invoke` (file_processor.py, lines 28-206):
dependency intake, the processed-count breaker, emergency filtering, queue
deduplication, the queue-size cap, and the pop-validate scan. -/
def fileProcessorStep (env : Env) (s : PState) : PState :=
  let (processed1, pending1) := fpPhase1 env s
  if max_files_threshold < processed1.length then
    fpToScene s processed1
  else
    let q := (dedupPending (emergencyFilter pending1)).take MAX_PENDING_FILES
    if q.isEmpty then
      fpToScene s processed1
    else
      match popValid (dictKeys s.generated_code) processed1 q with
      | some (v, rem) =>
        { s with node := .code_writer, current_file := some v,
                 pending_files := rem, processed_files := processed1 }
      | none =>
        fpToScene s processed1

/-- Embeds `CodeWriterNode.invoke` (code_writer.py, lines 25-69): with no
current file, hand to review unchanged; otherwise default the filename to
the sentinel and the iteration to 1, produce code through the oracle, and
rebuild the current-file dict with the remaining keys preserved. -/
def codeWriterStep (env : Env) (s : PState) : PState :=
  match s.current_file with
  | none => { s with node := .code_review }
  | some f =>
    { s with node := .code_review,
             current_file := some
               { f with filename := some (f.filename.getD "Unnamed.gd"),
                        code := some (env.gen f),
                        iteration := some (f.iteration.getD 1) } }

def MAX_ITERATIONS_PER_FILE : Nat := 5

/-- The revision feedback string built from the issue list. -/
def feedbackText (issues : List String) : String :=
  String.intercalate "\n" issues

/-- Embeds `CodeReviewNode.invoke` (code_review.py, lines 24-90): with no
current file, hand to the file processor; with issues and iteration below
`MAX_ITERATIONS_PER_FILE`, bump the iteration and return to the writer;
otherwise finalize into `generated_code` and clear the current file. -/
def codeReviewStep (env : Env) (s : PState) : PState :=
  match s.current_file with
  | none => { s with node := .file_processor }
  | some f =>
    let code_text := f.code.getD ""
    let filename := pyGetFilename f
    let iteration := f.iteration.getD 1
    let issues := env.validate code_text filename
    if issues ≠ [] ∧ iteration < MAX_ITERATIONS_PER_FILE then
      { s with node := .code_writer,
               current_file := some
                 { f with iteration := some (iteration + 1),
                          previous_code := some code_text,
                          feedback := some (feedbackText issues) } }
    else
      { s with node := .file_processor,
               current_file := none,
               generated_code := dictInsert s.generated_code filename code_text }

/-- One node invocation.  `scene_setup` is absorbing: the loop has handed
off. -/
def pipelineStep (env : Env) (s : PState) : PState :=
  match s.node with
  | .code_writer => codeWriterStep env s
  | .code_review => codeReviewStep env s
  | .file_processor => fileProcessorStep env s
  | .scene_setup => s

/-- `n` node invocations. -/
def pipelineRun (env : Env) : Nat → PState → PState
  | 0, s => s
  | n + 1, s => pipelineRun env n (pipelineStep env s)

/-- Embeds `SupervisorNode.invoke` (supervisor.py, lines 27-102) on a fresh
run (no code generated yet), with the planner result passed as `files`:
validate names, then either seed `current_file`/`pending_files` and hand to
the writer, or hand straight to scene setup with empty collections. -/
def supervisorInit (files : List FileDef) : PState :=
  let validated := files.filter fun f =>
    !(pyGetFilename f = "") && !(pyGetFilename f = "Unnamed.gd")
  match validated with
  | [] =>
    { node := .scene_setup, current_file := none, pending_files := [],
      generated_code := [], processed_files := [] }
  | first :: rest =>
    { node := .code_writer, current_file := some first,
      pending_files := rest.map Entry.dict, generated_code := [],
      processed_files := [] }

/-! ## Canonical-name uniqueness (C1) -/

/-- Canonical names of the dictionary entries of a queue. -/
def pendingNorms (l : List Entry) : List String :=
  l.filterMap fun e =>
    match e with
    | .dict d => some (normalize_filename (pyGetFilename d))
    | .nonDict => none

/-- Canonical names of the finalized artifacts. -/
def generatedNorms (s : PState) : List String :=
  (dictKeys s.generated_code).map normalize_filename

/-- Canonical names of the processed set. -/
def processedNorms (s : PState) : List String :=
  s.processed_files.map normalize_filename

/-- The uniqueness property claimed for every observation point: pending
canonical names are pairwise distinct and no canonical name is shared
between pending, finalized, and processed. -/
def uniqueInv (s : PState) : Prop :=
  (pendingNorms s.pending_files).Nodup ∧
  (∀ x ∈ pendingNorms s.pending_files, x ∉ generatedNorms s ∧ x ∉ processedNorms s) ∧
  ∀ x ∈ generatedNorms s, x ∉ processedNorms s

instance (s : PState) : Decidable (uniqueInv s) := by
  unfold uniqueInv
  infer_instance

theorem is_dup_of_existing_norm {fn : String} {ex : List String}
    {pe : List Entry} {pr : List String} {e : String} (he : e ∈ ex)
    (hn : normalize_filename e = normalize_filename fn) :
    is_duplicate_file fn ex pe pr = true := by
  unfold is_duplicate_file
  repeat' split
  all_goals try rfl
  all_goals simp_all [List.any_eq_true]
  exact Or.inr (Or.inl ⟨e, he, hn⟩)

theorem is_dup_of_processed_norm {fn : String} {ex : List String}
    {pe : List Entry} {pr : List String} {p : String} (hp : p ∈ pr)
    (hn : normalize_filename p = normalize_filename fn) :
    is_duplicate_file fn ex pe pr = true := by
  unfold is_duplicate_file
  repeat' split
  all_goals try rfl
  all_goals simp_all [List.any_eq_true]
  exact Or.inr (Or.inr (Or.inr ⟨p, hp, hn⟩))

/-- A pending entry accepted by the pop-validate scan clashes with no
finalized and no processed canonical name. -/
theorem is_dup_false_spec {fn : String} {ex pr : List String}
    (h : is_duplicate_file fn ex [] pr = false) :
    (∀ e ∈ ex, normalize_filename e ≠ normalize_filename fn) ∧
    ∀ p ∈ pr, normalize_filename p ≠ normalize_filename fn := by
  constructor
  · intro e he hn
    rw [is_dup_of_existing_norm he hn] at h
    cases h
  · intro p hp hn
    rw [is_dup_of_processed_norm hp hn] at h
    cases h

/-- Structure of a successful pop-validate scan: the queue splits around the
first valid entry, everything scanned before it was skipped but is kept in
the returned queue. -/
theorem popValid_spec (ex pr : List String) (q : List Entry) :
    ∀ (v : FileDef) (rem : List Entry),
      popValid ex pr q = some (v, rem) →
      ∃ l1 l2, q = l1 ++ Entry.dict v :: l2 ∧ rem = l1 ++ l2 ∧
        (∀ e ∈ l1, isValidPendingEntry ex pr e = false) ∧
        isValidPendingEntry ex pr (Entry.dict v) = true := by
  induction q with
  | nil =>
    intro v rem h
    simp [popValid] at h
  | cons e rest ih =>
    intro v rem h
    unfold popValid at h
    by_cases hv : isValidPendingEntry ex pr e = true
    · rw [if_pos hv] at h
      cases e with
      | dict d =>
        simp only [Option.some.injEq, Prod.mk.injEq] at h
        obtain ⟨h1, h2⟩ := h
        subst h1
        subst h2
        refine ⟨[], rest, rfl, rfl, ?_, hv⟩
        intro x hx
        cases hx
      | nonDict =>
        simp [isValidPendingEntry] at hv
    · rw [if_neg hv] at h
      cases hrec : popValid ex pr rest with
      | none =>
        rw [hrec] at h
        cases h
      | some p2 =>
        obtain ⟨v2, rem2⟩ := p2
        rw [hrec] at h
        simp only [Option.some.injEq, Prod.mk.injEq] at h
        obtain ⟨h1, h2⟩ := h
        obtain ⟨l1, l2, hq, hr, hskip, hval⟩ := ih v2 rem2 hrec
        subst h1
        refine ⟨e :: l1, l2, ?_, ?_, ?_, hval⟩
        · rw [List.cons_append, ← hq]
        · rw [← h2, List.cons_append, ← hr]
        · intro x hx
          rcases List.mem_cons.mp hx with rfl | hx
          · exact Bool.eq_false_iff.mpr hv
          · exact hskip x hx

theorem popValid_rem_sublist {ex pr : List String} {q : List Entry}
    {v : FileDef} {rem : List Entry} (h : popValid ex pr q = some (v, rem)) :
    rem.Sublist q := by
  obtain ⟨l1, l2, hq, hr, -, -⟩ := popValid_spec ex pr q v rem h
  rw [hq, hr]
  exact (List.sublist_cons_self _ _).append_left l1

theorem popValid_rem_length {ex pr : List String} {q : List Entry}
    {v : FileDef} {rem : List Entry} (h : popValid ex pr q = some (v, rem)) :
    rem.length + 1 = q.length := by
  obtain ⟨l1, l2, hq, hr, -, -⟩ := popValid_spec ex pr q v rem h
  rw [hq, hr]
  simp
  omega

theorem pendingNorms_sublist {l1 l2 : List Entry} (h : l1.Sublist l2) :
    (pendingNorms l1).Sublist (pendingNorms l2) :=
  h.filterMap _

/-- The queue deduplication produces pairwise-distinct canonical names, all
outside the accumulator. -/
theorem dedupPendingGo_nodup (seen : List String) (l : List Entry) :
    (pendingNorms (dedupPendingGo seen l)).Nodup ∧
    ∀ x ∈ pendingNorms (dedupPendingGo seen l), x ∉ seen := by
  induction l generalizing seen with
  | nil => exact ⟨List.nodup_nil, by intro x hx; cases hx⟩
  | cons e rest ih =>
    unfold dedupPendingGo
    rcases e with d | _
    · by_cases h0 : pyGetFilename d = ""
      · simpa [h0] using ih seen
      · rw [if_neg h0]
        by_cases hs : normalize_filename (pyGetFilename d) ∈ seen
        · rw [if_pos hs]
          exact ih seen
        · rw [if_neg hs]
          obtain ⟨ihn, ihs⟩ := ih (normalize_filename (pyGetFilename d) :: seen)
          have hnorm : pendingNorms (Entry.dict d ::
              dedupPendingGo (normalize_filename (pyGetFilename d) :: seen) rest) =
              normalize_filename (pyGetFilename d) ::
                pendingNorms (dedupPendingGo
                  (normalize_filename (pyGetFilename d) :: seen) rest) := rfl
          rw [hnorm]
          constructor
          · refine List.nodup_cons.mpr ⟨?_, ihn⟩
            intro hmem
            exact (ihs _ hmem) (List.mem_cons_self _ _)
          · intro x hx
            rcases List.mem_cons.mp hx with rfl | hx
            · exact hs
            · intro hxs
              exact (ihs x hx) (List.mem_cons_of_mem _ hxs)
    · simpa using ih seen

theorem dedupPending_nodup (l : List Entry) :
    (pendingNorms (dedupPending l)).Nodup :=
  (dedupPendingGo_nodup [] l).1

/-- Case split of the file-processor step: it either hands off to scene
setup with an empty queue, or selects a valid item via the pop-validate
scan. -/
theorem fileProcessorStep_cases (env : Env) (s : PState) :
    (∃ P, fileProcessorStep env s = fpToScene s P) ∨
    ∃ v rem,
      (fpPhase1 env s).1.length ≤ max_files_threshold ∧
      popValid (dictKeys s.generated_code) (fpPhase1 env s).1
          ((dedupPending (emergencyFilter (fpPhase1 env s).2)).take
            MAX_PENDING_FILES) = some (v, rem) ∧
      fileProcessorStep env s =
        { s with node := Node.code_writer, current_file := some v,
                 pending_files := rem, processed_files := (fpPhase1 env s).1 } := by
  unfold fileProcessorStep
  rcases hp : fpPhase1 env s with ⟨P, Q⟩
  dsimp only
  split
  · exact Or.inl ⟨P, rfl⟩
  · next hbreak =>
    split
    · exact Or.inl ⟨P, rfl⟩
    · rcases hpop : popValid (dictKeys s.generated_code) P
          ((dedupPending (emergencyFilter Q)).take MAX_PENDING_FILES) with - | ⟨v, rem⟩
      · exact Or.inl ⟨P, rfl⟩
      · exact Or.inr ⟨v, rem, Nat.not_lt.mp hbreak, rfl, rfl⟩

theorem isValid_dict_spec {ex pr : List String} {d : FileDef}
    (h : isValidPendingEntry ex pr (Entry.dict d) = true) :
    pyGetFilename d ≠ "" ∧ pyGetFilename d ≠ "Unnamed.gd" ∧
    is_duplicate_file (pyGetFilename d) ex [] pr = false := by
  simp only [isValidPendingEntry] at h
  by_cases h1 : pyGetFilename d = ""
  · rw [if_pos h1] at h
    cases h
  · rw [if_neg h1] at h
    by_cases h2 : pyGetFilename d = "Unnamed.gd"
    · rw [if_pos h2] at h
      cases h
    · rw [if_neg h2] at h
      exact ⟨h1, h2, by simpa using h⟩

/-- C1 (amended). After every file-processor invocation the queue holds
pairwise-distinct canonical names, and any item it selects for processing
clashes with no finalized and no processed canonical name; cross-collection
uniqueness for items left in the queue, however, is not restored (see the
counterexample). -/
theorem C1_amended_fp_uniqueness (env : Env) (s : PState) :
    (pendingNorms (fileProcessorStep env s).pending_files).Nodup ∧
    ∀ f, (fileProcessorStep env s).node = Node.code_writer →
      (fileProcessorStep env s).current_file = some f →
      normalize_filename (pyGetFilename f) ∉
          generatedNorms (fileProcessorStep env s) ∧
        normalize_filename (pyGetFilename f) ∉
          processedNorms (fileProcessorStep env s) := by
  rcases fileProcessorStep_cases env s with ⟨P, hP⟩ | ⟨v, rem, -, hpop, hstep⟩
  · rw [hP]
    constructor
    · exact List.nodup_nil
    · intro f hnode
      cases hnode
  · rw [hstep]
    constructor
    · have hsub : rem.Sublist ((dedupPending
          (emergencyFilter (fpPhase1 env s).2)).take MAX_PENDING_FILES) :=
        popValid_rem_sublist hpop
      have hsub2 := hsub.trans (List.take_sublist _ _)
      exact (dedupPending_nodup _).sublist (pendingNorms_sublist hsub2)
    · intro f _ hf
      obtain rfl : v = f := by cases hf; rfl
      obtain ⟨l1, l2, -, -, -, hvalid⟩ := popValid_spec _ _ _ _ _ hpop
      obtain ⟨-, -, hdup⟩ := isValid_dict_spec hvalid
      obtain ⟨hex, hpr⟩ := is_dup_false_spec hdup
      constructor
      · intro hmem
        obtain ⟨k, hk, hkeq⟩ := List.mem_map.mp hmem
        exact hex k hk hkeq
      · intro hmem
        obtain ⟨k, hk, hkeq⟩ := List.mem_map.mp hmem
        exact hpr k hk hkeq

/-- A concrete environment for counterexample runs: the writer oracle emits
`"code"`, validation approves everything, dependency analysis finds
nothing. -/
def plainEnv : Env :=
  ⟨fun _ => "code", fun _ _ => [], fun _ => "", fun _ => none, fun _ => []⟩

/-- C1 (counterexample).  Two observation points into a run whose plan holds
the canonically-equal names `"Player.gd"` and `"player.gd"` (the supervisor
validates names but never canonically deduplicates the plan), the review
node has finalized `"Player.gd"` while `"player.gd"` still sits in the
pending queue: one canonical name lives in both collections. -/
theorem C1_cex_uniqueness_fails :
    ¬ uniqueInv (pipelineRun plainEnv 2
      (supervisorInit [namedDef "Player.gd", namedDef "player.gd"])) := by
  decide

/-- C1 (witness for the amended theorem). -/
theorem C1_amended_witness :
    (pendingNorms (fileProcessorStep plainEnv
        ⟨Node.file_processor, none, [Entry.dict (namedDef "Enemy.gd")],
         [("Player.gd", "x")], []⟩).pending_files).Nodup ∧
    normalize_filename (pyGetFilename (namedDef "Enemy.gd")) ∉
        generatedNorms (fileProcessorStep plainEnv
          ⟨Node.file_processor, none, [Entry.dict (namedDef "Enemy.gd")],
           [("Player.gd", "x")], []⟩) :=
  ⟨(C1_amended_fp_uniqueness plainEnv _).1,
   ((C1_amended_fp_uniqueness plainEnv
       ⟨Node.file_processor, none, [Entry.dict (namedDef "Enemy.gd")],
        [("Player.gd", "x")], []⟩).2
     (namedDef "Enemy.gd") (by decide) (by decide)).1⟩

/-- C3 (amended).  Pop-validate behavior as implemented: when a valid item
is found, the queue handed back is the scanned-and-skipped prefix followed
by the unscanned remainder — skipped items are re-inserted, not discarded;
the queue is emptied only when control moves to scene setup (breaker, empty
queue, or no valid item at all). -/
theorem C3_amended_skipped_items_kept :
    (∀ (ex pr : List String) (q : List Entry) (v : FileDef) (rem : List Entry),
      popValid ex pr q = some (v, rem) →
      ∃ l1 l2, q = l1 ++ Entry.dict v :: l2 ∧ rem = l1 ++ l2 ∧
        (∀ e ∈ l1, isValidPendingEntry ex pr e = false) ∧
        isValidPendingEntry ex pr (Entry.dict v) = true) ∧
    ∀ (env : Env) (s : PState),
      (fileProcessorStep env s).node = Node.scene_setup →
      (fileProcessorStep env s).pending_files = [] := by
  constructor
  · exact fun ex pr q => popValid_spec ex pr q
  · intro env s hnode
    rcases fileProcessorStep_cases env s with ⟨P, hP⟩ | ⟨v, rem, -, -, hstep⟩
    · rw [hP]
      rfl
    · rw [hstep] at hnode
      cases hnode

/-- C3 (witness for the amended theorem): scanning
`[player.gd (duplicate), Enemy.gd]` against finalized `Player.gd` selects
`Enemy.gd` and hands back exactly the skipped duplicate. -/
theorem C3_amended_witness :
    ∃ l1 l2,
      [Entry.dict (namedDef "player.gd"), Entry.dict (namedDef "Enemy.gd")] =
        l1 ++ Entry.dict (namedDef "Enemy.gd") :: l2 ∧
      [Entry.dict (namedDef "player.gd")] = l1 ++ l2 ∧
      (∀ e ∈ l1, isValidPendingEntry ["Player.gd"] [] e = false) ∧
      isValidPendingEntry ["Player.gd"] []
        (Entry.dict (namedDef "Enemy.gd")) = true :=
  C3_amended_skipped_items_kept.1 ["Player.gd"] []
    [Entry.dict (namedDef "player.gd"), Entry.dict (namedDef "Enemy.gd")]
    (namedDef "Enemy.gd") [Entry.dict (namedDef "player.gd")] (by decide)

/-- C3 (counterexample).  On a queue whose head duplicates the finalized
`"Player.gd"`, the file processor scans and skips that head, selects
`"Enemy.gd"`, yet the skipped duplicate remains in the queue handed back to
the state. -/
theorem C3_cex_skipped_item_remains :
    (fileProcessorStep plainEnv
        ⟨Node.file_processor, none,
         [Entry.dict (namedDef "player.gd"), Entry.dict (namedDef "Enemy.gd")],
         [("Player.gd", "x")], []⟩).node = Node.code_writer ∧
    (fileProcessorStep plainEnv
        ⟨Node.file_processor, none,
         [Entry.dict (namedDef "player.gd"), Entry.dict (namedDef "Enemy.gd")],
         [("Player.gd", "x")], []⟩).current_file = some (namedDef "Enemy.gd") ∧
    Entry.dict (namedDef "player.gd") ∈
      (fileProcessorStep plainEnv
        ⟨Node.file_processor, none,
         [Entry.dict (namedDef "player.gd"), Entry.dict (namedDef "Enemy.gd")],
         [("Player.gd", "x")], []⟩).pending_files ∧
    isValidPendingEntry ["Player.gd"] []
      (Entry.dict (namedDef "player.gd")) = false := by
  decide

/-! ## Termination of the orchestration loop (C2) -/

theorem mem_pySet {x : String} {l : List String} : x ∈ pySet l ↔ x ∈ l := by
  induction l with
  | nil => simp [pySet]
  | cons y rest ih =>
    unfold pySet
    by_cases hy : y ∈ pySet rest
    · rw [if_pos hy]
      simp only [List.mem_cons]
      constructor
      · intro h
        exact Or.inr (ih.mp h)
      · intro h
        rcases h with rfl | h
        · exact hy
        · exact ih.mpr h
    · rw [if_neg hy]
      simp only [List.mem_cons, ih]

theorem pySet_nodup (l : List String) : (pySet l).Nodup := by
  induction l with
  | nil => exact List.nodup_nil
  | cons y rest ih =>
    unfold pySet
    by_cases hy : y ∈ pySet rest
    · rw [if_pos hy]
      exact ih
    · rw [if_neg hy]
      exact List.nodup_cons.mpr ⟨hy, ih⟩

theorem pySet_eq_of_nodup {l : List String} (h : l.Nodup) : pySet l = l := by
  induction l with
  | nil => rfl
  | cons y rest ih =>
    obtain ⟨hy, hrest⟩ := List.nodup_cons.mp h
    unfold pySet
    rw [if_neg fun hc => hy (by rw [← ih hrest]; exact hc), ih hrest]

theorem pySet_idem (l : List String) : pySet (pySet l) = pySet l :=
  pySet_eq_of_nodup (pySet_nodup l)

theorem nodup_append_singleton {l : List String} {x : String}
    (h : l.Nodup) (hx : x ∉ l) : (l ++ [x]).Nodup := by
  simp [List.nodup_append, h, hx]

/-- The dependency-intake phase either leaves both channels alone (beyond
the set coercion) or marks exactly one new name processed while appending
discovered dependencies to the queue. -/
theorem fpPhase1_cases (env : Env) (s : PState) :
    fpPhase1 env s = (pySet s.processed_files, s.pending_files) ∨
    ∃ nm extra, nm ∉ pySet s.processed_files ∧
      fpPhase1 env s = (pySet s.processed_files ++ [nm],
        s.pending_files ++ extra) := by
  unfold fpPhase1
  rcases s.current_file with - | f
  · exact Or.inl rfl
  · dsimp only
    by_cases hst : f.status = some "completed"
    · rw [if_pos hst]
      rcases f.filename with - | name
      · exact Or.inl rfl
      · dsimp only
        split
        · next hc =>
          split
          · exact Or.inr ⟨name, _, hc.2.2, by unfold setAdd; rw [if_neg hc.2.2]⟩
          · exact Or.inl rfl
        · exact Or.inl rfl
    · rw [if_neg hst]
      exact Or.inl rfl

/-- Length bound of the queue deduplication. -/
theorem dedupPendingGo_length_le (seen : List String) (l : List Entry) :
    (dedupPendingGo seen l).length ≤ l.length := by
  induction l generalizing seen with
  | nil => exact Nat.le_refl 0
  | cons e rest ih =>
    unfold dedupPendingGo
    rcases e with d | _
    · dsimp only
      split
      · exact (ih seen).trans (Nat.le_succ _)
      · split
        · exact (ih seen).trans (Nat.le_succ _)
        · simpa using ih _
    · dsimp only
      rw [if_pos rfl]
      exact (ih seen).trans (Nat.le_succ _)

/-- Node ranking inside one work-item episode. -/
def phaseOf : Node → Nat
  | .code_writer => 3
  | .code_review => 2
  | .file_processor => 1
  | .scene_setup => 0

/-- Remaining revision budget of the current work item. -/
def iterBudget : Option FileDef → Nat
  | none => 0
  | some f => MAX_ITERATIONS_PER_FILE - f.iteration.getD 1

/-- Queue weight, capped by the queue-size ceiling. -/
def pendBudget (l : List Entry) : Nat :=
  min l.length MAX_PENDING_FILES

/-- Remaining processed-count budget before the breaker trips. -/
def procBudget (l : List String) : Nat :=
  max_files_threshold + 1 - (pySet l).length

/-- Termination measure: strictly decreases along every non-terminal node
invocation. -/
def muMeasure (s : PState) : Nat :=
  match s.node with
  | .scene_setup => 0
  | n =>
    procBudget s.processed_files * 10000 + pendBudget s.pending_files * 100 +
      iterBudget s.current_file * 10 + phaseOf n

theorem iterBudget_le (o : Option FileDef) :
    iterBudget o ≤ MAX_ITERATIONS_PER_FILE := by
  rcases o with - | f
  · exact Nat.zero_le _
  · exact Nat.sub_le _ _

theorem pendBudget_le (l : List Entry) : pendBudget l ≤ MAX_PENDING_FILES :=
  Nat.min_le_right _ _

theorem mu_pos {s : PState} (h : s.node ≠ Node.scene_setup) :
    0 < muMeasure s := by
  unfold muMeasure
  rcases hn : s.node with - | - | - | -
  · simp [phaseOf]
  · simp [phaseOf]
  · simp [phaseOf]
  · exact absurd hn h

theorem muMeasure_eq (s : PState) (h : s.node ≠ Node.scene_setup) :
    muMeasure s = procBudget s.processed_files * 10000 +
      pendBudget s.pending_files * 100 + iterBudget s.current_file * 10 +
      phaseOf s.node := by
  unfold muMeasure
  rcases hn : s.node with - | - | - | -
  · rfl
  · rfl
  · rfl
  · exact absurd hn h

theorem muMeasure_scene {s : PState} (h : s.node = Node.scene_setup) :
    muMeasure s = 0 := by
  unfold muMeasure
  rw [h]

theorem muMeasure_mk (n : Node) (c : Option FileDef) (p : List Entry)
    (g : List (String × String)) (pr : List String)
    (h : n ≠ Node.scene_setup) :
    muMeasure ⟨n, c, p, g, pr⟩ = procBudget pr * 10000 + pendBudget p * 100 +
      iterBudget c * 10 + phaseOf n :=
  muMeasure_eq _ h

theorem writer_dec (env : Env) {s : PState} (h : s.node = Node.code_writer) :
    muMeasure (pipelineStep env s) < muMeasure s := by
  have hstep : pipelineStep env s = codeWriterStep env s := by
    unfold pipelineStep
    rw [h]
  rw [hstep]
  unfold codeWriterStep
  rcases hc : s.current_file with - | f
  · dsimp only
    rw [muMeasure_mk _ _ _ _ _ (by decide), muMeasure_eq s (by rw [h]; decide)]
    rw [h, hc]
    simp only [phaseOf, iterBudget]
    omega
  · dsimp only
    rw [muMeasure_mk _ _ _ _ _ (by decide), muMeasure_eq s (by rw [h]; decide)]
    rw [h, hc]
    simp only [phaseOf, iterBudget, Option.getD_some]
    omega

theorem review_dec (env : Env) {s : PState} (h : s.node = Node.code_review) :
    muMeasure (pipelineStep env s) < muMeasure s := by
  have hstep : pipelineStep env s = codeReviewStep env s := by
    unfold pipelineStep
    rw [h]
  rw [hstep]
  unfold codeReviewStep
  rcases hc : s.current_file with - | f
  · dsimp only
    rw [muMeasure_mk _ _ _ _ _ (by decide), muMeasure_eq s (by rw [h]; decide)]
    rw [h, hc]
    simp only [phaseOf, iterBudget]
    omega
  · dsimp only
    split
    · next hit =>
      rw [muMeasure_mk _ _ _ _ _ (by decide), muMeasure_eq s (by rw [h]; decide)]
      rw [h, hc]
      have hlt := hit.2
      simp only [MAX_ITERATIONS_PER_FILE] at hlt
      simp only [phaseOf, iterBudget, Option.getD_some, MAX_ITERATIONS_PER_FILE]
      omega
    · rw [muMeasure_mk _ _ _ _ _ (by decide), muMeasure_eq s (by rw [h]; decide)]
      rw [h, hc]
      simp only [phaseOf, iterBudget, Option.getD_some]
      omega

theorem fp_dec (env : Env) {s : PState} (h : s.node = Node.file_processor) :
    muMeasure (pipelineStep env s) < muMeasure s := by
  have hstep : pipelineStep env s = fileProcessorStep env s := by
    unfold pipelineStep
    rw [h]
  rw [hstep]
  rcases fileProcessorStep_cases env s with ⟨P, hP⟩ | ⟨v, rem, hbr, hpop, hw⟩
  · rw [hP, muMeasure_scene rfl]
    exact mu_pos (by rw [h]; decide)
  · rw [hw]
    rw [muMeasure_mk _ _ _ _ _ (by decide), muMeasure_eq s (by rw [h]; decide), h]
    simp only [phaseOf]
    have hib2 : iterBudget (some v) ≤ 5 := by
      simpa [MAX_ITERATIONS_PER_FILE] using iterBudget_le (some v)
    rcases fpPhase1_cases env s with hA | ⟨nm, extra, hnm, hB⟩
    · have hA1 : (fpPhase1 env s).1 = pySet s.processed_files := by rw [hA]
      have hA2 : (fpPhase1 env s).2 = s.pending_files := by rw [hA]
      rw [hA1]
      rw [hA1, hA2] at hpop
      have e1 : procBudget (pySet s.processed_files) =
          procBudget s.processed_files := by
        unfold procBudget
        rw [pySet_idem]
      rw [e1]
      have hlen := popValid_rem_length hpop
      have hq30 : ((dedupPending (emergencyFilter s.pending_files)).take
          MAX_PENDING_FILES).length ≤ MAX_PENDING_FILES := by
        rw [List.length_take]
        exact Nat.min_le_left _ _
      have hqp : ((dedupPending (emergencyFilter s.pending_files)).take
          MAX_PENDING_FILES).length ≤ s.pending_files.length := by
        calc ((dedupPending (emergencyFilter s.pending_files)).take
            MAX_PENDING_FILES).length
            ≤ (dedupPending (emergencyFilter s.pending_files)).length := by
              rw [List.length_take]
              exact Nat.min_le_right _ _
          _ ≤ (emergencyFilter s.pending_files).length :=
              dedupPendingGo_length_le _ _
          _ ≤ s.pending_files.length := List.length_filter_le _ _
      have hpend2 : pendBudget rem ≤ rem.length := Nat.min_le_left _ _
      have hpend1 : ((dedupPending (emergencyFilter s.pending_files)).take
          MAX_PENDING_FILES).length ≤ pendBudget s.pending_files :=
        Nat.le_min.mpr ⟨hqp, hq30⟩
      omega
    · have hB1 : (fpPhase1 env s).1 = pySet s.processed_files ++ [nm] := by
        rw [hB]
      rw [hB1]
      rw [hB1] at hbr
      have hL : (pySet s.processed_files).length + 1 ≤ max_files_threshold := by
        simpa using hbr
      have e1 : procBudget (pySet s.processed_files ++ [nm]) =
          max_files_threshold + 1 - ((pySet s.processed_files).length + 1) := by
        unfold procBudget
        rw [pySet_eq_of_nodup (nodup_append_singleton (pySet_nodup _) hnm)]
        simp
      rw [e1]
      have e2 : procBudget s.processed_files =
          max_files_threshold + 1 - (pySet s.processed_files).length := rfl
      rw [e2]
      have hpend2 : pendBudget rem ≤ MAX_PENDING_FILES := pendBudget_le rem
      simp only [max_files_threshold, MAX_PENDING_FILES] at *
      omega

theorem mu_dec (env : Env) {s : PState} (h : s.node ≠ Node.scene_setup) :
    muMeasure (pipelineStep env s) < muMeasure s := by
  rcases hn : s.node with - | - | - | -
  · exact writer_dec env hn
  · exact review_dec env hn
  · exact fp_dec env hn
  · exact absurd hn h

theorem scene_absorb (env : Env) {s : PState}
    (h : s.node = Node.scene_setup) : pipelineStep env s = s := by
  unfold pipelineStep
  rw [h]

theorem scene_run (env : Env) {s : PState} (h : s.node = Node.scene_setup) :
    ∀ n, pipelineRun env n s = s := by
  intro n
  induction n with
  | zero => rfl
  | succ m ih =>
    show pipelineRun env m (pipelineStep env s) = s
    rw [scene_absorb env h]
    exact ih

theorem run_reaches_scene (env : Env) :
    ∀ (n : Nat) (s : PState), muMeasure s ≤ n →
      (pipelineRun env n s).node = Node.scene_setup := by
  intro n
  induction n with
  | zero =>
    intro s hs
    by_contra hc
    exact absurd (Nat.le_zero.mp hs) (Nat.pos_iff_ne_zero.mp (mu_pos hc))
  | succ m ih =>
    intro s hs
    by_cases hsc : s.node = Node.scene_setup
    · rw [show pipelineRun env (m + 1) s =
          pipelineRun env m (pipelineStep env s) from rfl,
        scene_absorb env hsc, scene_run env hsc]
      exact hsc
    · have hdec := mu_dec env hsc
      exact ih (pipelineStep env s) (by omega)

/-- C2.  For every behavior of the external service and from every state,
the orchestration loop reaches the terminal scene-setup hand-off within
`muMeasure s` node invocations: the processed-count breaker, the queue-size
cap, and the per-artifact iteration bound make every node invocation
decrease an explicit natural measure, so the pipeline never runs forever. -/
theorem C2_termination (env : Env) (s : PState) :
    (pipelineRun env (muMeasure s) s).node = Node.scene_setup :=
  run_reaches_scene env (muMeasure s) s (Nat.le_refl _)

/-! ## Iteration bound (C5) -/

/-- Dependencies surviving batch deduplication come from the input batch. -/
theorem dedupDepsGo_mem {existing : List String} {pending : List Entry}
    {processed : List String} {d : FileDef} :
    ∀ {seen : List String} {deps : List Entry},
      d ∈ dedupDepsGo existing pending processed seen deps →
      Entry.dict d ∈ deps := by
  intro seen deps
  induction deps generalizing seen with
  | nil =>
    intro h
    cases h
  | cons e rest ih =>
    intro h
    rcases e with d2 | _
    · unfold dedupDepsGo at h
      dsimp only at h
      split at h
      · exact List.mem_cons_of_mem _ (ih h)
      · split at h
        · exact List.mem_cons_of_mem _ (ih h)
        · split at h
          · exact List.mem_cons_of_mem _ (ih h)
          · split at h
            · exact List.mem_cons_of_mem _ (ih h)
            · rcases List.mem_cons.mp h with rfl | h2
              · exact List.mem_cons_self _ _
              · exact List.mem_cons_of_mem _ (ih h2)
    · unfold dedupDepsGo at h
      exact List.mem_cons_of_mem _ (ih h)

/-- Dependencies produced by detection originate as objects of the decoded
JSON array. -/
theorem detect_mem_decode {claude : DetectCall → String}
    {decode : String → Option (List JEntry)} {sf c : String}
    {existing processed : List String} {pending : List Entry}
    {potential : List String} {d : FileDef}
    (h : d ∈ (detect_dependencies claude decode sf c existing processed
      pending potential).1) :
    ∃ t l, extractArray (claude ⟨(detect_filtered potential existing pending
        processed).take MAX_DEPENDENCIES, sf, String.mk (c.data.take 500)⟩) =
          some t ∧
      decode t = some l ∧ JEntry.obj d ∈ l ∧
      pyGetFilename d ≠ "" ∧ pyGetFilename d ≠ "Unnamed.gd" := by
  unfold detect_dependencies at h
  split at h
  · cases h
  · dsimp only at h
    split at h
    · cases h
    · rcases hext : extractArray (claude ⟨(detect_filtered potential existing
          pending processed).take MAX_DEPENDENCIES, sf,
          String.mk (c.data.take 500)⟩) with - | txt
      · rw [hext] at h
        cases h
      · rw [hext] at h
        dsimp only at h
        rcases hdec : decode txt with - | defs
        · rw [hdec] at h
          cases h
        · rw [hdec] at h
          dsimp only at h
          have hv := dedupDepsGo_mem h
          obtain ⟨e, he, heq⟩ := List.mem_filterMap.mp hv
          rcases e with d2 | -
          · refine ⟨txt, defs, rfl, hdec, ?_⟩
            dsimp only at heq
            by_cases h1 : pyGetFilename d2 = ""
            · rw [if_pos h1] at heq
              cases heq
            · rw [if_neg h1] at heq
              by_cases h2 : pyGetFilename d2 = "Unnamed.gd"
              · rw [if_pos h2] at heq
                cases heq
              · rw [if_neg h2] at heq
                obtain rfl : d2 = d := by
                  cases heq
                  rfl
                exact ⟨he, h1, h2⟩
          · cases heq

/-- The iteration-bound invariant: the current work item and every
dictionary in the queue carry an iteration (read with Python default 1) of
at most `MAX_ITERATIONS_PER_FILE`. -/
def IterInv (s : PState) : Prop :=
  (∀ f, s.current_file = some f →
    f.iteration.getD 1 ≤ MAX_ITERATIONS_PER_FILE) ∧
  ∀ d, Entry.dict d ∈ s.pending_files →
    d.iteration.getD 1 ≤ MAX_ITERATIONS_PER_FILE

/-- The external service plants no oversized iteration counter: every
object of every decoded JSON array reads an iteration of at most the
maximum (in particular any freshly created work item, whose `iteration` key
is absent, reads the default 1). -/
def GoodEnv (env : Env) : Prop :=
  ∀ t l, env.decode t = some l → ∀ d, JEntry.obj d ∈ l →
    d.iteration.getD 1 ≤ MAX_ITERATIONS_PER_FILE

theorem detect_iter_le {env : Env} (hg : GoodEnv env) {sf c : String}
    {existing processed : List String} {pending : List Entry}
    {potential : List String} {d : FileDef}
    (h : d ∈ (detect_dependencies env.claude env.decode sf c existing
      processed pending potential).1) :
    d.iteration.getD 1 ≤ MAX_ITERATIONS_PER_FILE := by
  obtain ⟨t, l, -, hdec, hmem, -, -⟩ := detect_mem_decode h
  exact hg t l hdec d hmem

/-- The queue after the dependency-intake phase: unchanged, or extended by
the validated detected dependencies. -/
theorem fpPhase1_pending_spec (env : Env) (s : PState) :
    (fpPhase1 env s).2 = s.pending_files ∨
    ∃ sf c potential,
      (fpPhase1 env s).2 = s.pending_files ++
        ((detect_dependencies env.claude env.decode sf c
            (dictKeys s.generated_code) (setAdd (pySet s.processed_files) sf)
            s.pending_files potential).1.filter fun d =>
          !(pyGetFilename d = "") && !(pyGetFilename d = "Unnamed.gd")).map
          Entry.dict := by
  unfold fpPhase1
  rcases s.current_file with - | f
  · exact Or.inl rfl
  · dsimp only
    by_cases hst : f.status = some "completed"
    · rw [if_pos hst]
      rcases f.filename with - | name
      · exact Or.inl rfl
      · dsimp only
        split
        · split
          · exact Or.inr ⟨name, _, _, rfl⟩
          · exact Or.inl rfl
        · exact Or.inl rfl
    · rw [if_neg hst]
      exact Or.inl rfl

/-- Queue entries after the dependency-intake phase are either old queue
entries or freshly detected dependencies. -/
theorem fpPhase1_pending_mem {env : Env} {s : PState} {e : Entry}
    (h : e ∈ (fpPhase1 env s).2) :
    e ∈ s.pending_files ∨
    ∃ sf c potential d, e = Entry.dict d ∧
      d ∈ (detect_dependencies env.claude env.decode sf c
        (dictKeys s.generated_code) (setAdd (pySet s.processed_files) sf)
        s.pending_files potential).1 := by
  rcases fpPhase1_pending_spec env s with hA | ⟨sf, c, potential, hB⟩
  · rw [hA] at h
    exact Or.inl h
  · rw [hB] at h
    rcases List.mem_append.mp h with hold | hnew
    · exact Or.inl hold
    · obtain ⟨d, hd, rfl⟩ := List.mem_map.mp hnew
      exact Or.inr ⟨sf, c, potential, d, rfl, List.mem_of_mem_filter hd⟩

theorem dedupPendingGo_subset {e : Entry} :
    ∀ {seen : List String} {l : List Entry},
      e ∈ dedupPendingGo seen l → e ∈ l := by
  intro seen l
  induction l generalizing seen with
  | nil =>
    intro h
    cases h
  | cons x rest ih =>
    intro h
    unfold dedupPendingGo at h
    dsimp only at h
    split at h
    · exact List.mem_cons_of_mem _ (ih h)
    · split at h
      · exact List.mem_cons_of_mem _ (ih h)
      · rcases List.mem_cons.mp h with rfl | h2
        · exact List.mem_cons_self _ _
        · exact List.mem_cons_of_mem _ (ih h2)

/-- Any entry of the post-filter queue `q` used by the pop-validate scan was
already in the queue produced by the intake phase. -/
theorem q_mem_pending1 {env : Env} {s : PState} {e : Entry}
    (h : e ∈ (dedupPending (emergencyFilter (fpPhase1 env s).2)).take
      MAX_PENDING_FILES) : e ∈ (fpPhase1 env s).2 :=
  List.mem_of_mem_filter (dedupPendingGo_subset (List.take_subset _ _ h))

/-- One node invocation preserves the iteration-bound invariant. -/
theorem iterInv_step {env : Env} (hg : GoodEnv env) {s : PState}
    (h : IterInv s) : IterInv (pipelineStep env s) := by
  have hqmem : ∀ d : FileDef,
      Entry.dict d ∈ (dedupPending (emergencyFilter (fpPhase1 env s).2)).take
        MAX_PENDING_FILES →
      d.iteration.getD 1 ≤ MAX_ITERATIONS_PER_FILE := by
    intro d hd
    rcases fpPhase1_pending_mem (q_mem_pending1 hd) with
      hold | ⟨sf, c, potential, d2, hde, hdet⟩
    · exact h.2 d hold
    · obtain rfl : d2 = d := by
        cases hde
        rfl
      exact detect_iter_le hg hdet
  rcases hn : s.node with - | - | - | -
  · have hstep : pipelineStep env s = codeWriterStep env s := by
      unfold pipelineStep
      rw [hn]
    rw [hstep]
    unfold codeWriterStep
    rcases hc : s.current_file with - | f
    · refine ⟨?_, h.2⟩
      intro g hgf
      simp at hgf
    · unfold IterInv
      dsimp only
      refine ⟨?_, h.2⟩
      intro g hgf
      obtain rfl := Option.some.inj hgf
      simpa using h.1 f hc
  · have hstep : pipelineStep env s = codeReviewStep env s := by
      unfold pipelineStep
      rw [hn]
    rw [hstep]
    unfold codeReviewStep
    rcases hc : s.current_file with - | f
    · refine ⟨?_, h.2⟩
      intro g hgf
      simp at hgf
    · dsimp only
      split
    
      · next hit =>
        unfold IterInv
        dsimp only
        refine ⟨?_, h.2⟩
        intro g hgf
        obtain rfl := Option.some.inj hgf
        have hlt := hit.2
        simp only [MAX_ITERATIONS_PER_FILE] at hlt
        simp only [MAX_ITERATIONS_PER_FILE, Option.getD_some]
        omega
      · unfold IterInv
        dsimp only
        refine ⟨?_, h.2⟩
        intro g hgf
        cases hgf
  · have hstep : pipelineStep env s = fileProcessorStep env s := by
      unfold pipelineStep
      rw [hn]
    rw [hstep]
    rcases fileProcessorStep_cases env s with ⟨P, hP⟩ | ⟨v, rem, -, hpop, hw⟩
    · rw [hP]
      unfold IterInv fpToScene
      dsimp only
      refine ⟨h.1, ?_⟩
      intro d hd
      cases hd
    · rw [hw]
      obtain ⟨l1, l2, hq, -, -, -⟩ := popValid_spec _ _ _ _ _ hpop
      unfold IterInv
      dsimp only
      refine ⟨?_, ?_⟩
      · intro g hgf
        obtain rfl := Option.some.inj hgf
        exact hqmem v (hq ▸ List.mem_append.mpr (Or.inr (List.mem_cons_self _ _)))
      · intro d hd
        exact hqmem d ((popValid_rem_sublist hpop).mem hd)
  · rw [scene_absorb env hn]
    exact h

/-- C5.  If every work item starts with an iteration counter reading at
most the maximum (freshly created items read the default 1), then along
every run of the pipeline the counter never exceeds
`MAX_ITERATIONS_PER_FILE`: the review node increments only below the
maximum, otherwise it finalizes. -/
theorem C5_iteration_never_exceeds_max (env : Env) (hg : GoodEnv env)
    (s : PState) (hinv : IterInv s) :
    ∀ n : Nat, IterInv (pipelineRun env n s) := by
  intro n
  induction n generalizing s with
  | zero => exact hinv
  | succ m ih =>
    show IterInv (pipelineRun env m (pipelineStep env s))
    exact ih _ (iterInv_step hg hinv)

/-- C5 (witness): a concrete environment and start state satisfying the
hypotheses, with the bound holding after three node invocations. -/
theorem C5_witness :
    GoodEnv plainEnv ∧
    IterInv ⟨Node.code_writer, some (namedDef "Player.gd"),
      [Entry.dict (namedDef "Enemy.gd")], [], []⟩ ∧
    IterInv (pipelineRun plainEnv 3 ⟨Node.code_writer,
      some (namedDef "Player.gd"), [Entry.dict (namedDef "Enemy.gd")],
      [], []⟩) := by
  have h1 : GoodEnv plainEnv := by
    intro t l hl
    cases hl
  have h2 : IterInv ⟨Node.code_writer, some (namedDef "Player.gd"),
      [Entry.dict (namedDef "Enemy.gd")], [], []⟩ := by
    constructor
    · intro f hf
      cases hf
      decide
    · intro d hd
      cases hd with
      | head => decide
      | tail b htl => cases htl
  exact ⟨h1, h2, C5_iteration_never_exceeds_max plainEnv h1 _ h2 3⟩

/-! ## Dependency-detection contracts (C6, C7, C8) -/

/-- Full case characterization of `_detect_dependencies`: either nothing is
filtered (or inputs are falsy) and no call is made, or exactly one call is
issued carrying the truncated filtered candidates, and the result follows
the parse outcome. -/
theorem detect_spec (claude : DetectCall → String)
    (decode : String → Option (List JEntry)) (sf c : String)
    (existing processed : List String) (pending : List Entry)
    (potential : List String) :
    detect_dependencies claude decode sf c existing processed pending
      potential = ([], none) ∨
    ∃ call : DetectCall,
      call = ⟨(detect_filtered potential existing pending processed).take
        MAX_DEPENDENCIES, sf, String.mk (c.data.take 500)⟩ ∧
      ((detect_filtered potential existing pending processed).take
        MAX_DEPENDENCIES).isEmpty = false ∧
      ((extractArray (claude call) = none ∧
        detect_dependencies claude decode sf c existing processed pending
          potential = ([], some call)) ∨
       (∃ t, extractArray (claude call) = some t ∧ decode t = none ∧
        detect_dependencies claude decode sf c existing processed pending
          potential = ([], some call)) ∨
       ∃ t l, extractArray (claude call) = some t ∧ decode t = some l ∧
        detect_dependencies claude decode sf c existing processed pending
          potential =
          (deduplicate_dependencies (l.filterMap fun e =>
            match e with
            | .obj d =>
              if pyGetFilename d = "" then none
              else if pyGetFilename d = "Unnamed.gd" then none
              else some (Entry.dict d)
            | .nonObj => none) existing pending processed, some call)) := by
  unfold detect_dependencies
  split
  · exact Or.inl rfl
  · dsimp only
    split
    · exact Or.inl rfl
    · next hne =>
      refine Or.inr ⟨_, rfl, Bool.eq_false_iff.mpr hne, ?_⟩
      rcases hext : extractArray (claude ⟨(detect_filtered potential existing
          pending processed).take MAX_DEPENDENCIES, sf,
          String.mk (c.data.take 500)⟩) with - | txt
      · exact Or.inl ⟨rfl, rfl⟩
      · rcases hdec : decode txt with - | defs
        · exact Or.inr (Or.inl ⟨txt, rfl, hdec, by dsimp only; rw [hdec]⟩)
        · exact Or.inr (Or.inr ⟨txt, defs, rfl, hdec, by dsimp only; rw [hdec]⟩)

/-- C6.  When candidate filtering (built-in vocabulary, leading underscore,
the three tracking collections) leaves nothing, detection returns empty and
issues no content-generation call; and a candidate whose `.gd` filename
canonically matches a finalized artifact is never part of any issued
call. -/
theorem C6_filtered_out_never_called (claude : DetectCall → String)
    (decode : String → Option (List JEntry)) (sf c : String)
    (existing processed : List String) (pending : List Entry)
    (potential : List String) :
    (detect_filtered potential existing pending processed = [] →
      detect_dependencies claude decode sf c existing processed pending
        potential = ([], none)) ∧
    ∀ name, (∃ e ∈ existing, normalize_filename e =
        normalize_filename (name ++ ".gd")) →
      ∀ call, (detect_dependencies claude decode sf c existing processed
        pending potential).2 = some call → name ∉ call.names := by
  constructor
  · intro hfil
    rcases detect_spec claude decode sf c existing processed pending
      potential with hnone | ⟨call, -, hne, -⟩
    · exact hnone
    · rw [hfil] at hne
      simp at hne
  · intro name hex call hcall
    have hnot : name ∉ (detect_filtered potential existing pending
        processed).take MAX_DEPENDENCIES := by
      intro hin
      have hp := (List.mem_filter.mp (List.take_subset _ _ hin)).2
      obtain ⟨e, he, hne2⟩ := hex
      rw [is_dup_of_existing_norm he hne2] at hp
      simp at hp
    rcases detect_spec claude decode sf c existing processed pending
      potential with hnone | ⟨call2, hcdef, -, harms⟩
    · rw [hnone] at hcall
      cases hcall
    · have h2 : (detect_dependencies claude decode sf c existing processed
          pending potential).2 = some call2 := by
        rcases harms with ⟨-, heq⟩ | ⟨t, -, -, heq⟩ | ⟨t, l, -, -, heq⟩ <;>
          rw [heq]
      rw [h2] at hcall
      obtain rfl := Option.some.inj hcall
      rw [hcdef]
      exact hnot

/-- C6 (witness): with `"Player.gd"` finalized, the lone candidate
`"Player"` is filtered out and no call is issued; with an extra fresh
candidate `"Foo"`, the issued call does not carry `"Player"`. -/
theorem C6_witness :
    detect_dependencies (fun _ => "") (fun _ => none) "Src.gd" "x"
      ["Player.gd"] [] [] ["Player"] = ([], none) ∧
    "Player" ∉ (DetectCall.mk ["Foo"] "Src.gd" "x").names :=
  ⟨(C6_filtered_out_never_called (fun _ => "") (fun _ => none) "Src.gd" "x"
      ["Player.gd"] [] [] ["Player"]).1 (by decide),
   (C6_filtered_out_never_called (fun _ => "") (fun _ => none) "Src.gd" "x"
      ["Player.gd"] [] [] ["Player", "Foo"]).2 "Player"
     ⟨"Player.gd", by decide, by decide⟩ ⟨["Foo"], "Src.gd", "x"⟩ (by decide)⟩

/-- C7.  Every call issued by dependency detection carries at most
`MAX_DEPENDENCIES` names: the filtered candidates are truncated before the
prompt is built. -/
theorem C7_fanout_capped (claude : DetectCall → String)
    (decode : String → Option (List JEntry)) (sf c : String)
    (existing processed : List String) (pending : List Entry)
    (potential : List String) (call : DetectCall)
    (h : (detect_dependencies claude decode sf c existing processed pending
      potential).2 = some call) :
    call.names.length ≤ MAX_DEPENDENCIES := by
  rcases detect_spec claude decode sf c existing processed pending potential
    with hnone | ⟨call2, hcdef, -, harms⟩
  · rw [hnone] at h
    cases h
  · have h2 : (detect_dependencies claude decode sf c existing processed
        pending potential).2 = some call2 := by
      rcases harms with ⟨-, heq⟩ | ⟨t, -, -, heq⟩ | ⟨t, l, -, -, heq⟩ <;>
        rw [heq]
    rw [h2] at h
    obtain rfl := Option.some.inj h
    rw [hcdef]
    dsimp only
    rw [List.length_take]
    exact Nat.min_le_left _ _

/-- C7 (witness): a ten-candidate set results in a call carrying exactly
the first three filtered names. -/
theorem C7_witness :
    (detect_dependencies (fun _ => "") (fun _ => none) "Src.gd" "x" [] [] []
        ["Foo1", "Foo2", "Foo3", "Foo4", "Foo5", "Foo6", "Foo7", "Foo8",
         "Foo9", "Foo10"]).2 =
      some ⟨["Foo1", "Foo2", "Foo3"], "Src.gd", "x"⟩ ∧
    (DetectCall.mk ["Foo1", "Foo2", "Foo3"] "Src.gd" "x").names.length ≤
      MAX_DEPENDENCIES :=
  ⟨by decide,
   C7_fanout_capped (fun _ => "") (fun _ => none) "Src.gd" "x" [] [] []
     ["Foo1", "Foo2", "Foo3", "Foo4", "Foo5", "Foo6", "Foo7", "Foo8",
      "Foo9", "Foo10"] ⟨["Foo1", "Foo2", "Foo3"], "Src.gd", "x"⟩ (by decide)⟩

/-- C8 (amended).  A response with no JSON array, or whose array text fails
to decode, yields an empty result for that call and no exception (the
embedding is total); decoded arrays with non-object elements do not fail
the call: every produced definition is an object of the decoded array with
a validated name, while non-object elements are skipped individually. -/
theorem C8_amended_parse_failure_localized (claude : DetectCall → String)
    (decode : String → Option (List JEntry)) (sf c : String)
    (existing processed : List String) (pending : List Entry)
    (potential : List String) :
    (∀ call, (detect_dependencies claude decode sf c existing processed
        pending potential).2 = some call →
      extractArray (claude call) = none →
      (detect_dependencies claude decode sf c existing processed pending
        potential).1 = []) ∧
    (∀ call t, (detect_dependencies claude decode sf c existing processed
        pending potential).2 = some call →
      extractArray (claude call) = some t → decode t = none →
      (detect_dependencies claude decode sf c existing processed pending
        potential).1 = []) ∧
    ∀ call t l, (detect_dependencies claude decode sf c existing processed
        pending potential).2 = some call →
      extractArray (claude call) = some t → decode t = some l →
      ∀ d ∈ (detect_dependencies claude decode sf c existing processed
        pending potential).1,
        JEntry.obj d ∈ l ∧ pyGetFilename d ≠ "" ∧
          pyGetFilename d ≠ "Unnamed.gd" := by
  rcases detect_spec claude decode sf c existing processed pending potential
    with hnone | ⟨call2, hcdef, -, harms⟩
  · refine ⟨?_, ?_, ?_⟩
    · intro call hc
      rw [hnone] at hc
      cases hc
    · intro call t hc
      rw [hnone] at hc
      cases hc
    · intro call t l hc
      rw [hnone] at hc
      cases hc
  · have h2 : (detect_dependencies claude decode sf c existing processed
        pending potential).2 = some call2 := by
      rcases harms with ⟨-, heq⟩ | ⟨t, -, -, heq⟩ | ⟨t, l, -, -, heq⟩ <;>
        rw [heq]
    refine ⟨?_, ?_, ?_⟩
    · intro call hc hext
      rw [h2] at hc
      obtain rfl := Option.some.inj hc
      rcases harms with ⟨-, heq⟩ | ⟨t, -, -, heq⟩ | ⟨t, l, hext2, -, heq⟩
      · rw [heq]
      · rw [heq]
      · rw [hext] at hext2
        cases hext2
    · intro call t hc hext hdec
      rw [h2] at hc
      obtain rfl := Option.some.inj hc
      rcases harms with ⟨-, heq⟩ | ⟨t2, -, -, heq⟩ | ⟨t2, l, hext2, hdec2, heq⟩
      · rw [heq]
      · rw [heq]
      · rw [hext] at hext2
        obtain rfl := Option.some.inj hext2
        rw [hdec] at hdec2
        cases hdec2
    · intro call t l hc hext hdec d hd
      rw [h2] at hc
      obtain rfl := Option.some.inj hc
      obtain ⟨t2, l2, hext2, hdec2, hmem, hn1, hn2⟩ := detect_mem_decode hd
      rw [hcdef] at hext
      rw [hext] at hext2
      obtain rfl := Option.some.inj hext2
      rw [hdec] at hdec2
      obtain rfl := Option.some.inj hdec2
      exact ⟨hmem, hn1, hn2⟩

/-- A concrete service response whose extracted JSON array holds a
non-object element (`1`) alongside a well-formed object. -/
def c8resp : String := "[1, \x7b\"filename\": \"Enemy.gd\"\x7d]"

/-- A concrete decoder agreeing with `json.loads` on `c8resp`. -/
def c8decode : String → Option (List JEntry) := fun t =>
  if t = c8resp then some [JEntry.nonObj, JEntry.obj (namedDef "Enemy.gd")]
  else none

/-- C8 (counterexample).  The decoded array contains a non-object element,
yet detection does not return an empty sequence for the call: the object
element survives, so "non-object elements" is not a whole-call parse
failure. -/
theorem C8_cex_nonobject_not_whole_call_failure :
    c8decode c8resp = some [JEntry.nonObj, JEntry.obj (namedDef "Enemy.gd")] ∧
    (detect_dependencies (fun _ => c8resp) c8decode "Src.gd" "code" [] [] []
      ["Foo"]).1 = [namedDef "Enemy.gd"] := by
  decide

/-- C8 (witness for the amended theorem): a response with no array in it
yields an empty result for that call. -/
theorem C8_amended_witness :
    (detect_dependencies (fun _ => "no array here") (fun _ => none) "Src.gd"
      "x" [] [] [] ["Foo"]).1 = [] :=
  (C8_amended_parse_failure_localized (fun _ => "no array here")
      (fun _ => none) "Src.gd" "x" [] [] [] ["Foo"]).1
    ⟨["Foo"], "Src.gd", "x"⟩ (by decide) (by decide)

/-! ## Planner abort condition (C9) -/

/-- C9.  The planner raises exactly when no JSON array can be extracted or
the array text fails to decode; any decodable response returns normally,
even when every planned entry is filtered out. -/
theorem C9_planner_raises_iff_unparseable
    (decode : String → Option (List JEntry)) (response : String) :
    (plan_necessary_files decode response = Except.error () ↔
      (extractArray response).bind decode = none) ∧
    ∀ l, (extractArray response).bind decode = some l →
      ∃ fs, plan_necessary_files decode response = Except.ok fs := by
  unfold plan_necessary_files
  rcases hext : extractArray response with - | txt
  · simp
  · rcases hdec : decode txt with - | planned
    · simp [hdec]
    · simp [hdec]

/-- C9 (witness): a response with no array aborts; a decodable response
whose only element is a non-object returns an empty accepted plan. -/
theorem C9_witness :
    plan_necessary_files (fun _ => none) "no array" = Except.error () ∧
    ∃ fs, plan_necessary_files (fun t => if t = "[1]" then
      some [JEntry.nonObj] else none) "[1]" = Except.ok fs :=
  ⟨(C9_planner_raises_iff_unparseable (fun _ => none) "no array").1.mpr
      (by decide),
   (C9_planner_raises_iff_unparseable (fun t => if t = "[1]" then
      some [JEntry.nonObj] else none) "[1]").2 [JEntry.nonObj] (by decide)⟩

/-! ## Empty canonical names are always duplicates (C10) -/

theorem is_dup_of_norm_empty {fn : String} (h : normalize_filename fn = "")
    (ex : List String) (pe : List Entry) (pr : List String) :
    is_duplicate_file fn ex pe pr = true := by
  unfold is_duplicate_file
  split
  · rfl
  · dsimp only
    rw [if_pos h]

/-- A dependency surviving batch deduplication was not flagged by
`is_duplicate_file`. -/
theorem dedupDepsGo_kept_not_dup {existing : List String}
    {pending : List Entry} {processed : List String} {d : FileDef} :
    ∀ {seen : List String} {deps : List Entry},
      d ∈ dedupDepsGo existing pending processed seen deps →
      is_duplicate_file (pyGetFilename d) existing pending processed =
        false := by
  intro seen deps
  induction deps generalizing seen with
  | nil =>
    intro h
    cases h
  | cons e rest ih =>
    intro h
    rcases e with d2 | _
    · unfold dedupDepsGo at h
      dsimp only at h
      split at h
      · exact ih h
      · split at h
        · exact ih h
        · split at h
          · exact ih h
          · split at h
            · exact ih h
            · next hdup =>
              rcases List.mem_cons.mp h with rfl | h2
              · exact Bool.eq_false_iff.mpr hdup
              · exact ih h2
    · unfold dedupDepsGo at h
      exact ih h

/-- C10.  Any filename normalizing to the empty string — empty, all
whitespace, or ending in a path separator — is treated as a duplicate
regardless of the three tracking collections, and consequently no
dependency admitted by deduplication carries such a name. -/
theorem C10_empty_canonical_always_duplicate (f : String)
    (h : normalize_filename f = "") :
    (∀ existing pending processed,
      is_duplicate_file f existing pending processed = true) ∧
    ∀ deps existing pending processed d,
      d ∈ deduplicate_dependencies deps existing pending processed →
      normalize_filename (pyGetFilename d) ≠ "" := by
  constructor
  · intro ex pe pr
    exact is_dup_of_norm_empty h ex pe pr
  · intro deps ex pe pr d hd hnorm
    have hfalse := dedupDepsGo_kept_not_dup hd
    rw [is_dup_of_norm_empty hnorm ex pe pr] at hfalse
    cases hfalse

/-- C10 (witness): `"scripts/"` normalizes to `""` and is flagged a
duplicate even against non-empty collections. -/
theorem C10_witness :
    normalize_filename "scripts/" = "" ∧
    is_duplicate_file "scripts/" ["A.gd"] [Entry.nonDict] ["B.gd"] = true :=
  ⟨by decide,
   (C10_empty_canonical_always_duplicate "scripts/" (by decide)).1
     ["A.gd"] [Entry.nonDict] ["B.gd"]⟩
